import Mathlib

set_option autoImplicit false

/-!
Shallow embedding of the pass-management core declared in
`include/llvm/IR/PassManager.h`: the `PreservedAnalyses` set, the
capability-erased analysis result models, the analysis managers, the
`FunctionAnalysisModuleProxy` and the `ModuleToFunctionPassAdaptor`.

Pass identities (`void *` produced by taking the address of a static
`char`) are modelled as natural numbers.  Method bodies that live in
`PassManager.cpp` rather than in the header (`getResultImpl`,
`invalidateImpl`, `FunctionAnalysisManager::clear`,
`FunctionAnalysisModuleProxy::Result::invalidate`) are modelled from the
specification and carry a doc comment saying so.
-/

/-- Sentinel `AllPassesID = (uintptr_t)(intptr_t)-3` from the source, on a
64-bit target.  Real pass identities are addresses of static objects and
are never equal to this value. -/
def AllPassesID : Nat := 2 ^ 64 - 3

/-- Source `class PreservedAnalyses`: a `SmallPtrSet<void *, 2> PreservedPassIDs`
of preserved pass identities, possibly holding the `AllPassesID`
sentinel. -/
structure PreservedAnalyses where
  PreservedPassIDs : Finset Nat
deriving DecidableEq

/-- Source `PreservedAnalyses::none()`: the default-constructed, empty set. -/
def PreservedAnalyses.none : PreservedAnalyses := ⟨∅⟩

/-- Source `PreservedAnalyses::all()`: inserts the `AllPassesID` sentinel into an
empty set. -/
def PreservedAnalyses.all : PreservedAnalyses := ⟨{AllPassesID}⟩

/-- Source `PreservedAnalyses::areAllPreserved()`:
`PreservedPassIDs.count((void *)AllPassesID)`. -/
def PreservedAnalyses.areAllPreserved (PA : PreservedAnalyses) : Bool :=
  decide (AllPassesID ∈ PA.PreservedPassIDs)

/-- Source `PreservedAnalyses::preserve<PassT>()`: insert the identity unless all
passes are already preserved. -/
def PreservedAnalyses.preserve (PA : PreservedAnalyses) (id : Nat) : PreservedAnalyses :=
  if PA.areAllPreserved then PA else ⟨insert id PA.PreservedPassIDs⟩

/-- Source `PreservedAnalyses::intersect(const PreservedAnalyses &Arg)`: if `Arg`
preserves everything, keep this set; if this set preserves everything,
copy `Arg`'s identities; otherwise erase every identity of this set that
`Arg` does not also hold. -/
def PreservedAnalyses.intersect (PA Arg : PreservedAnalyses) : PreservedAnalyses :=
  if Arg.areAllPreserved then PA
  else if PA.areAllPreserved then ⟨Arg.PreservedPassIDs⟩
  else ⟨PA.PreservedPassIDs.filter (fun x => x ∈ Arg.PreservedPassIDs)⟩

/-- Source `PreservedAnalyses::preserved(void *PassID)`:
`PreservedPassIDs.count((void *)AllPassesID) || PreservedPassIDs.count(PassID)`. -/
def PreservedAnalyses.preserved (PA : PreservedAnalyses) (id : Nat) : Bool :=
  decide (AllPassesID ∈ PA.PreservedPassIDs) || decide (id ∈ PA.PreservedPassIDs)

/-- Source `detail::AnalysisResultConcept<IRUnitT>` as stored by the managers:
the erased result value together with the polymorphic `invalidate` method
the chosen model installed. -/
structure AnalysisResultConcept (IRUnitT ResultT : Type) where
  Result : ResultT
  invalidate : IRUnitT → PreservedAnalyses → Bool

/-- Source `detail::AnalysisResultModel<IRUnitT, PassT, ResultT, false>`: the
default model, selected when `ResultT` has no `invalidate` member.  The
owning pass's identity `PassT::ID()` is carried as the field `passID`. -/
structure AnalysisResultModelDefault (IRUnitT ResultT : Type) where
  passID : Nat
  Result : ResultT

/-- Source default model `invalidate`: `return !PA.preserved(PassT::ID());`
(the IR unit argument is unnamed and unused in the source). -/
def AnalysisResultModelDefault.invalidate {IRUnitT ResultT : Type}
    (m : AnalysisResultModelDefault IRUnitT ResultT) (_ : IRUnitT)
    (PA : PreservedAnalyses) : Bool :=
  ! PA.preserved m.passID

/-- Erasure of the default model to the stored concept. -/
def AnalysisResultModelDefault.toConcept {IRUnitT ResultT : Type}
    (m : AnalysisResultModelDefault IRUnitT ResultT) :
    AnalysisResultConcept IRUnitT ResultT :=
  ⟨m.Result, m.invalidate⟩

/-- Source `detail::AnalysisResultModel<IRUnitT, PassT, ResultT, true>`: the
model selected when `ResultT` supplies its own `invalidate` member; that
member function is carried as the field `resultInvalidate`. -/
structure AnalysisResultModelCustom (IRUnitT ResultT : Type) where
  Result : ResultT
  resultInvalidate : ResultT → IRUnitT → PreservedAnalyses → Bool

/-- Source custom model `invalidate`: `return Result.invalidate(IR, PA);`. -/
def AnalysisResultModelCustom.invalidate {IRUnitT ResultT : Type}
    (m : AnalysisResultModelCustom IRUnitT ResultT) (IR : IRUnitT)
    (PA : PreservedAnalyses) : Bool :=
  m.resultInvalidate m.Result IR PA

/-- Erasure of the custom model to the stored concept. -/
def AnalysisResultModelCustom.toConcept {IRUnitT ResultT : Type}
    (m : AnalysisResultModelCustom IRUnitT ResultT) :
    AnalysisResultConcept IRUnitT ResultT :=
  ⟨m.Result, m.invalidate⟩

/-- State of an analysis manager (`ModuleAnalysisManager` /
`FunctionAnalysisManager`): `AnalysisPasses` maps a registered identity to
the erased analysis (its `run` method), and `AnalysisResults` caches the
erased result per `(identity, unit)` key.  The source stores these in
`DenseMap`s (plus, for the function manager, per-function result lists);
both are modelled as association lists. -/
structure AnalysisManager (IRUnitT ResultT : Type) where
  AnalysisPasses : List (Nat × (IRUnitT → AnalysisResultConcept IRUnitT ResultT))
  AnalysisResults : List ((Nat × IRUnitT) × AnalysisResultConcept IRUnitT ResultT)

/-- Source `AnalysisPasses.count(PassT::ID())`: whether an identity is
registered. -/
def AnalysisManager.hasPass {IRUnitT ResultT : Type}
    (AM : AnalysisManager IRUnitT ResultT) (passID : Nat) : Bool :=
  (AM.AnalysisPasses.find? (fun e => decide (e.1 = passID))).isSome

/-- Lookup of the cached result for an `(identity, unit)` key. -/
def AnalysisManager.lookupResult {IRUnitT ResultT : Type} [DecidableEq IRUnitT]
    (AM : AnalysisManager IRUnitT ResultT) (passID : Nat) (u : IRUnitT) :
    Option ((Nat × IRUnitT) × AnalysisResultConcept IRUnitT ResultT) :=
  AM.AnalysisResults.find? (fun e => decide (e.1 = (passID, u)))

/-- Source `registerPass<PassT>(Pass)` from the header: asserts the identity
is not yet registered (`Option.none` models the fatal assertion), then
stores the erased analysis under its identity. -/
def AnalysisManager.registerPass {IRUnitT ResultT : Type}
    (AM : AnalysisManager IRUnitT ResultT) (passID : Nat)
    (pass : IRUnitT → AnalysisResultConcept IRUnitT ResultT) :
    Option (AnalysisManager IRUnitT ResultT) :=
  if AM.hasPass passID then Option.none
  else Option.some { AM with AnalysisPasses := (passID, pass) :: AM.AnalysisPasses }

/-- Modelled from the spec: the bodies of `getResultImpl` for both managers
live in `PassManager.cpp`, which is not under `src/`; §4.3 of the spec: if
a cached result exists for `(identity, unit)`, return it; otherwise run
the registered analysis against the unit, store the result, and return
it.  `Option.none` models the fatal path of an unregistered identity. -/
def AnalysisManager.getResultImpl {IRUnitT ResultT : Type} [DecidableEq IRUnitT]
    (AM : AnalysisManager IRUnitT ResultT) (passID : Nat) (u : IRUnitT) :
    Option (AnalysisManager IRUnitT ResultT × AnalysisResultConcept IRUnitT ResultT) :=
  match AM.lookupResult passID u with
  | Option.some e => Option.some (AM, e.2)
  | Option.none =>
    match AM.AnalysisPasses.find? (fun e => decide (e.1 = passID)) with
    | Option.some p =>
      Option.some ({ AM with AnalysisResults := ((passID, u), p.2 u) :: AM.AnalysisResults },
        p.2 u)
    | Option.none => Option.none

/-- Source `getResult<PassT>(unit)` from the header: asserts the identity is
registered (`Option.none` models the fatal assertion), then delegates to
`getResultImpl`. -/
def AnalysisManager.getResult {IRUnitT ResultT : Type} [DecidableEq IRUnitT]
    (AM : AnalysisManager IRUnitT ResultT) (passID : Nat) (u : IRUnitT) :
    Option (AnalysisManager IRUnitT ResultT × AnalysisResultConcept IRUnitT ResultT) :=
  if AM.hasPass passID then AM.getResultImpl passID u
  else Option.none

/-- Modelled from the spec: the bodies of `invalidateImpl` live in
`PassManager.cpp`, which is not under `src/`; §4.3 of the spec: explicit,
unconditional removal of the one cached entry for `(identity, unit)`. -/
def AnalysisManager.invalidateImpl {IRUnitT ResultT : Type} [DecidableEq IRUnitT]
    (AM : AnalysisManager IRUnitT ResultT) (passID : Nat) (u : IRUnitT) :
    AnalysisManager IRUnitT ResultT :=
  { AM with AnalysisResults :=
      AM.AnalysisResults.filter (fun e => ! decide (e.1 = (passID, u))) }

/-- Source `invalidate<PassT>(unit)` from the header: asserts the identity is
registered (`Option.none` models the fatal assertion), then delegates to
`invalidateImpl`. -/
def AnalysisManager.invalidateId {IRUnitT ResultT : Type} [DecidableEq IRUnitT]
    (AM : AnalysisManager IRUnitT ResultT) (passID : Nat) (u : IRUnitT) :
    Option (AnalysisManager IRUnitT ResultT) :=
  if AM.hasPass passID then Option.some (AM.invalidateImpl passID u)
  else Option.none

/-- Modelled from the spec: the body of `invalidate(unit, PreservedAnalyses)`
lives in `PassManager.cpp`, which is not under `src/`; §4.3 of the spec:
for every cached result currently keyed to `unit`, invoke its erased
`invalidate` and remove the entries that report invalid; entries for
other units are untouched. -/
def AnalysisManager.invalidateSweep {IRUnitT ResultT : Type} [DecidableEq IRUnitT]
    (AM : AnalysisManager IRUnitT ResultT) (u : IRUnitT) (PA : PreservedAnalyses) :
    AnalysisManager IRUnitT ResultT :=
  { AM with AnalysisResults :=
      (AM.AnalysisResults.filter
        (fun e => if e.1.2 = u then ! e.2.invalidate u PA else true)) }

/-- Modelled from the spec: the body of `FunctionAnalysisManager::clear` lives
in `PassManager.cpp`, which is not under `src/`; the header documents it
as dropping all cached results for all units without calling any result's
`invalidate`. -/
def AnalysisManager.clear {IRUnitT ResultT : Type}
    (AM : AnalysisManager IRUnitT ResultT) : AnalysisManager IRUnitT ResultT :=
  { AM with AnalysisResults := [] }

/-- Modelled from the spec: the body of `FunctionAnalysisManager::empty` lives
in `PassManager.cpp`; true iff no cached results exist. -/
def AnalysisManager.empty {IRUnitT ResultT : Type}
    (AM : AnalysisManager IRUnitT ResultT) : Bool :=
  AM.AnalysisResults.isEmpty

/-- Identity of `FunctionAnalysisModuleProxy` (the address `&PassID` of its
static member in the source): an object address, hence distinct from the
`AllPassesID` sentinel; modelled as an arbitrary fixed number. -/
def FunctionAnalysisModuleProxyID : Nat := 1

/-- Modelled from the spec: the body of
`FunctionAnalysisModuleProxy::Result::invalidate(Module *, const PreservedAnalyses &)`
lives in `PassManager.cpp`, which is not under `src/`; §4.5 of the spec:
if the proxy's own identity is not preserved, call `clear()` on the
function analysis manager the result references and report invalid
(`true`); if it is preserved, do nothing and report still valid
(`false`).  The mutated manager is returned alongside the verdict. -/
def proxyResultInvalidate {F R : Type} (FAM : AnalysisManager F R)
    (PA : PreservedAnalyses) : AnalysisManager F R × Bool :=
  if PA.preserved FunctionAnalysisModuleProxyID then (FAM, false)
  else (FAM.clear, true)

/-- Loop of `ModuleToFunctionPassAdaptor<FunctionPassT>::run(Module *M)`: over
the module's functions in iteration order, run the wrapped pass (which
may carry mutable state of type `σ`, threaded exactly as the C++ pass
object's state is) and intersect the reported set into the running
total. -/
def ModuleToFunctionPassAdaptorLoop {σ : Type}
    (Pass : σ → Nat → σ × PreservedAnalyses) (s : σ) (PA : PreservedAnalyses) :
    List Nat → σ × PreservedAnalyses
  | [] => (s, PA)
  | I :: rest =>
    ModuleToFunctionPassAdaptorLoop Pass (Pass s I).1 (PA.intersect (Pass s I).2) rest

/-- Source `ModuleToFunctionPassAdaptor<FunctionPassT>::run(Module *M)` for an
adaptor constructed without a `ModuleAnalysisManager` (`MAM = 0`, so the
initial proxy `getResult` is skipped): a module is its list of functions
(function instances modelled as numbers) in iteration order; the running
set starts at `PreservedAnalyses::all()`, each function's reported set is
intersected in, and finally the proxy's identity is marked preserved. -/
def ModuleToFunctionPassAdaptorRun {σ : Type}
    (Pass : σ → Nat → σ × PreservedAnalyses) (s : σ) (M : List Nat) :
    σ × PreservedAnalyses :=
  let acc := ModuleToFunctionPassAdaptorLoop Pass s PreservedAnalyses.all M
  (acc.1, acc.2.preserve FunctionAnalysisModuleProxyID)

/-- Instrumented function pass: a pure pass `p` paired with a trace, as state,
of the function instances its `run` was invoked on, in order. -/
def tracedPass (p : Nat → PreservedAnalyses) :
    List Nat → Nat → List Nat × PreservedAnalyses :=
  fun tr I => (tr ++ [I], p I)

/-- Concrete function analysis manager used to instantiate proxy theorems. -/
def witnessFAM : AnalysisManager Nat Nat :=
  ⟨[], [((3, 4), ⟨0, fun _ _ => false⟩)]⟩

/-- Concrete analysis with identity 5: maps a unit to a result that is one
larger, with an `invalidate` that always answers true. -/
def witnessPass : Nat → AnalysisResultConcept Nat Nat :=
  fun u => ⟨u + 1, fun _ _ => true⟩

/-- Manager with `witnessPass` registered under identity 5 and an empty
cache. -/
def witnessRegisteredAM : AnalysisManager Nat Nat := ⟨[(5, witnessPass)], []⟩

/-- Manager state after the first `getResult` for `(5, 7)` on
`witnessRegisteredAM`. -/
def witnessCachedAM : AnalysisManager Nat Nat :=
  ⟨[(5, witnessPass)], [((5, 7), witnessPass 7)]⟩

/-- Manager with nothing registered and nothing cached. -/
def witnessEmptyAM : AnalysisManager Nat Nat := ⟨[], []⟩

/-- Concrete custom-invalidation result model whose own `invalidate` always
answers false. -/
def witnessCustomModel : AnalysisResultModelCustom Nat Nat :=
  ⟨7, fun _ _ _ => false⟩

/-- Manager caching `witnessCustomModel`'s erased result under `(5, 0)`. -/
def witnessSweepAM : AnalysisManager Nat Nat :=
  ⟨[], [((5, 0), witnessCustomModel.toConcept)]⟩

/-- Helper: the verdict of `preserved` after an `intersect` is the
conjunction of the two operands' verdicts. -/
theorem PreservedAnalyses.preserved_intersect (A B : PreservedAnalyses) (id : Nat) :
    (A.intersect B).preserved id = (A.preserved id && B.preserved id) := by
  by_cases hB : AllPassesID ∈ B.PreservedPassIDs <;>
  by_cases hA : AllPassesID ∈ A.PreservedPassIDs <;>
  by_cases hiA : id ∈ A.PreservedPassIDs <;>
  by_cases hiB : id ∈ B.PreservedPassIDs <;>
  simp [PreservedAnalyses.intersect, PreservedAnalyses.preserved,
    PreservedAnalyses.areAllPreserved, Finset.mem_filter, hA, hB, hiA, hiB]

/-- Helper: `all()` answers `preserved` positively for every identity. -/
theorem PreservedAnalyses.preserved_all (id : Nat) :
    PreservedAnalyses.all.preserved id = true := by
  simp [PreservedAnalyses.all, PreservedAnalyses.preserved]

/-- C4: for all `PreservedAnalyses` sets `A` and `B` and every identity
`id`, after `A.intersect(B)` the query `preserved id` holds iff `id` was
preserved in the original `A` and is preserved in `B`; consequently
intersection is commutative and associative with respect to the
`preserved` predicate. -/
theorem intersect_preserved_conj_comm_assoc (A B C : PreservedAnalyses) (id : Nat) :
    (A.intersect B).preserved id = (A.preserved id && B.preserved id) ∧
    (A.intersect B).preserved id = (B.intersect A).preserved id ∧
    ((A.intersect B).intersect C).preserved id =
      (A.intersect (B.intersect C)).preserved id := by
  refine ⟨A.preserved_intersect B id, ?_, ?_⟩
  · rw [A.preserved_intersect B id, B.preserved_intersect A id, Bool.and_comm]
  · rw [(A.intersect B).preserved_intersect C id, A.preserved_intersect B id,
      A.preserved_intersect (B.intersect C) id, B.preserved_intersect C id,
      Bool.and_assoc]

/-- C6: `all()` is the identity of `intersect`: intersecting any `A` with
`all()` leaves `A` unchanged, and intersecting `all()` with any `B`
yields exactly `B`'s preservation verdicts. -/
theorem intersect_all_identity (A B : PreservedAnalyses) (id : Nat) :
    A.intersect PreservedAnalyses.all = A ∧
    (PreservedAnalyses.all.intersect B).preserved id = B.preserved id := by
  constructor
  · simp [PreservedAnalyses.intersect, PreservedAnalyses.areAllPreserved,
      PreservedAnalyses.all]
  · rw [PreservedAnalyses.all.preserved_intersect B id,
      PreservedAnalyses.preserved_all, Bool.true_and]

/-- Helper: after a successful `getResult`, the returned manager caches the
returned result under the `(identity, unit)` key and still has the
identity registered. -/
theorem AnalysisManager.cached_after {IRUnitT ResultT : Type} [DecidableEq IRUnitT]
    {AM AM1 : AnalysisManager IRUnitT ResultT} {passID : Nat} {u : IRUnitT}
    {r1 : AnalysisResultConcept IRUnitT ResultT}
    (h : AM.getResult passID u = Option.some (AM1, r1)) :
    AM1.AnalysisResults.find? (fun e => decide (e.1 = (passID, u))) =
      Option.some ((passID, u), r1) ∧
    AM1.hasPass passID = true := by
  unfold AnalysisManager.getResult at h
  by_cases hp : AM.hasPass passID = true
  · rw [if_pos hp] at h
    unfold AnalysisManager.getResultImpl at h
    cases hc : AM.lookupResult passID u with
    | some e =>
      simp only [hc, Option.some.injEq, Prod.mk.injEq] at h
      obtain ⟨hAM, hr⟩ := h
      have hfind : AM.AnalysisResults.find? (fun e => decide (e.1 = (passID, u))) =
          Option.some e := hc
      have hpe := List.find?_some hfind
      have he : e.1 = (passID, u) := by simpa using hpe
      have he2 : e = ((passID, u), r1) := by rw [← he, ← hr]
      subst hAM
      exact ⟨by rw [hfind, he2], hp⟩
    | none =>
      cases hf : AM.AnalysisPasses.find? (fun e => decide (e.1 = passID)) with
      | none => simp [hc, hf] at h
      | some p =>
        simp only [hc, hf, Option.some.injEq, Prod.mk.injEq] at h
        obtain ⟨hAM, hr⟩ := h
        subst hAM
        subst hr
        refine ⟨?_, hp⟩
        exact List.find?_cons_of_pos _ (by simp)
  · rw [if_neg hp] at h
    exact Option.noConfusion h

/-- C5: a successful `getResult` for `(identity, unit)` leaves the manager in
a state where a second `getResult` with no intervening invalidation
returns the very same cached result and the very same state; the second
call consults only the cache, never the registered analysis (any analysis
function substituted for the registered one yields the same answer); and
on the first call, if the pair was uncached, the analysis ran exactly
once: the returned result is the analysis applied to the unit, newly
stored in the cache. -/
theorem getResult_caches_and_runs_once {IRUnitT ResultT : Type} [DecidableEq IRUnitT]
    (AM AM1 : AnalysisManager IRUnitT ResultT) (passID : Nat) (u : IRUnitT)
    (r1 : AnalysisResultConcept IRUnitT ResultT)
    (h : AM.getResult passID u = Option.some (AM1, r1)) :
    AM1.getResult passID u = Option.some (AM1, r1) ∧
    (∀ g, AnalysisManager.getResult ⟨[(passID, g)], AM1.AnalysisResults⟩ passID u =
      Option.some (⟨[(passID, g)], AM1.AnalysisResults⟩, r1)) ∧
    (∀ p, AM.AnalysisPasses.find? (fun e => decide (e.1 = passID)) = Option.some p →
      AM.lookupResult passID u = Option.none →
      r1 = p.2 u ∧ AM1.AnalysisResults = ((passID, u), p.2 u) :: AM.AnalysisResults) := by
  obtain ⟨hcache, hreg⟩ := AnalysisManager.cached_after h
  refine ⟨?_, ?_, ?_⟩
  · unfold AnalysisManager.getResult
    rw [if_pos hreg]
    unfold AnalysisManager.getResultImpl AnalysisManager.lookupResult
    rw [hcache]
  · intro g
    unfold AnalysisManager.getResult
    rw [if_pos (by simp [AnalysisManager.hasPass])]
    unfold AnalysisManager.getResultImpl AnalysisManager.lookupResult
    rw [show (AnalysisManager.mk [(passID, g)] AM1.AnalysisResults :
        AnalysisManager IRUnitT ResultT).AnalysisResults = AM1.AnalysisResults from rfl,
      hcache]
  · intro p hf hc
    unfold AnalysisManager.getResult at h
    by_cases hp : AM.hasPass passID = true
    · rw [if_pos hp] at h
      unfold AnalysisManager.getResultImpl at h
      simp only [hc, hf, Option.some.injEq, Prod.mk.injEq] at h
      obtain ⟨hAM, hr⟩ := h
      exact ⟨hr.symm, by rw [← hAM]⟩
    · rw [if_neg hp] at h
      exact Option.noConfusion h

/-- Witness for C5 at a concrete manager: the first `getResult` for `(5, 7)`
on `witnessRegisteredAM` yields `witnessCachedAM`, and the second call
returns the same state and cached result. -/
theorem getResult_caches_and_runs_once_witness :
    witnessCachedAM.getResult 5 7 = Option.some (witnessCachedAM, witnessPass 7) :=
  (getResult_caches_and_runs_once witnessRegisteredAM witnessCachedAM 5 7
    (witnessPass 7) rfl).1

/-- C1: the proxy result's `invalidate` is a two-branch rule: when the
proxy's own identity is not preserved it clears the function analysis
manager in bulk (the resulting cache is empty whatever entries and
whatever per-entry `invalidate` functions it held) and reports invalid;
when the identity is preserved it reports valid and leaves the manager
untouched. -/
theorem proxy_invalidate_two_branch {F R : Type} (FAM : AnalysisManager F R)
    (PA : PreservedAnalyses) :
    (PA.preserved FunctionAnalysisModuleProxyID = false →
      proxyResultInvalidate FAM PA = (FAM.clear, true) ∧
      (proxyResultInvalidate FAM PA).1.AnalysisResults = [] ∧
      (proxyResultInvalidate FAM PA).1.empty = true) ∧
    (PA.preserved FunctionAnalysisModuleProxyID = true →
      proxyResultInvalidate FAM PA = (FAM, false)) := by
  constructor
  · intro hnp
    simp [proxyResultInvalidate, hnp, AnalysisManager.clear, AnalysisManager.empty]
  · intro hp
    simp [proxyResultInvalidate, hp]

/-- Witness for C1 at a concrete manager and the two extreme preserved
sets. -/
theorem proxy_invalidate_two_branch_witness :
    proxyResultInvalidate witnessFAM PreservedAnalyses.none = (witnessFAM.clear, true) ∧
    proxyResultInvalidate witnessFAM PreservedAnalyses.all = (witnessFAM, false) :=
  ⟨((proxy_invalidate_two_branch witnessFAM PreservedAnalyses.none).1 (by decide)).1,
   (proxy_invalidate_two_branch witnessFAM PreservedAnalyses.all).2 (by decide)⟩

/-- C2: the default result model's `invalidate` answers true exactly when the
owning analysis's identity is not preserved by the given set, for every
unit and every preserved set. -/
theorem default_invalidate_iff_not_preserved {IRUnitT ResultT : Type}
    (m : AnalysisResultModelDefault IRUnitT ResultT) (u : IRUnitT)
    (PA : PreservedAnalyses) :
    m.invalidate u PA = ! PA.preserved m.passID ∧
    (m.invalidate u PA = true ↔ PA.preserved m.passID = false) := by
  refine ⟨rfl, ?_⟩
  simp [AnalysisResultModelDefault.invalidate]

/-- C9: the default result model's verdict does not depend on the IR unit:
any two units yield the same boolean for the same preserved set. -/
theorem default_invalidate_unit_independent {IRUnitT ResultT : Type}
    (m : AnalysisResultModelDefault IRUnitT ResultT) (U1 U2 : IRUnitT)
    (PA : PreservedAnalyses) :
    m.invalidate U1 PA = m.invalidate U2 PA := rfl

/-- C7: the custom result model's `invalidate` returns exactly the verdict of
the wrapped result's own method for every unit and preserved set; hence a
cached entry whose own method always answers false survives every
preservation-based invalidation sweep, whatever the preserved set. -/
theorem custom_invalidate_delegates {IRUnitT ResultT : Type} [DecidableEq IRUnitT]
    (m : AnalysisResultModelCustom IRUnitT ResultT) :
    (∀ (u : IRUnitT) (PA : PreservedAnalyses),
      m.invalidate u PA = m.resultInvalidate m.Result u PA) ∧
    ((∀ (u : IRUnitT) (PA : PreservedAnalyses),
        m.resultInvalidate m.Result u PA = false) →
      ∀ (AM : AnalysisManager IRUnitT ResultT) (key : Nat × IRUnitT)
        (u : IRUnitT) (PA : PreservedAnalyses),
        (key, m.toConcept) ∈ AM.AnalysisResults →
        (key, m.toConcept) ∈ (AM.invalidateSweep u PA).AnalysisResults) := by
  constructor
  · intro u PA
    rfl
  · intro hfalse AM key u PA hmem
    unfold AnalysisManager.invalidateSweep
    simp only [List.mem_filter]
    refine ⟨hmem, ?_⟩
    by_cases hk : key.2 = u
    · simp [hk, AnalysisResultModelCustom.toConcept,
        AnalysisResultModelCustom.invalidate, hfalse]
    · simp [hk]

/-- Witness for C7: the concrete always-false custom result survives a sweep
with the empty preserved set. -/
theorem custom_invalidate_delegates_witness :
    ((5, 0), witnessCustomModel.toConcept) ∈
      (witnessSweepAM.invalidateSweep 0 PreservedAnalyses.none).AnalysisResults :=
  (custom_invalidate_delegates witnessCustomModel).2 (fun _ _ => rfl)
    witnessSweepAM (5, 0) 0 PreservedAnalyses.none (by simp [witnessSweepAM])

/-- C8: `registerPass` fails (fatal assertion, modelled `Option.none`)
exactly when the identity is already registered, and on the non-failing
path stores the analysis under its identity; `getResult` and the
per-identity `invalidate` fail fatally when the identity is
unregistered. -/
theorem register_and_query_fatality {IRUnitT ResultT : Type} [DecidableEq IRUnitT]
    (AM : AnalysisManager IRUnitT ResultT) (passID : Nat)
    (pass : IRUnitT → AnalysisResultConcept IRUnitT ResultT) (u : IRUnitT) :
    (AM.registerPass passID pass = Option.none ↔ AM.hasPass passID = true) ∧
    (AM.hasPass passID = false →
      AM.registerPass passID pass =
        Option.some { AM with AnalysisPasses := (passID, pass) :: AM.AnalysisPasses } ∧
      ∀ AM2, AM.registerPass passID pass = Option.some AM2 →
        AM2.AnalysisPasses.find? (fun e => decide (e.1 = passID)) =
          Option.some (passID, pass)) ∧
    (AM.hasPass passID = false →
      AM.getResult passID u = Option.none ∧
      AM.invalidateId passID u = Option.none) := by
  refine ⟨?_, ?_, ?_⟩
  · unfold AnalysisManager.registerPass
    by_cases hp : AM.hasPass passID = true
    · simp [hp]
    · simp [hp]
  · intro hp
    unfold AnalysisManager.registerPass
    rw [if_neg (by simp [hp])]
    refine ⟨rfl, ?_⟩
    intro AM2 h2
    rw [Option.some.injEq] at h2
    rw [← h2]
    exact List.find?_cons_of_pos _ (by simp)
  · intro hp
    constructor
    · unfold AnalysisManager.getResult
      rw [if_neg (by simp [hp])]
    · unfold AnalysisManager.invalidateId
      rw [if_neg (by simp [hp])]

/-- Witness for C8 at concrete managers: registering identity 5 twice fails,
registering it on an empty manager stores it, and querying or
invalidating the unregistered identity 5 fails. -/
theorem register_and_query_fatality_witness :
    witnessRegisteredAM.registerPass 5 witnessPass = Option.none ∧
    witnessEmptyAM.registerPass 5 witnessPass =
      Option.some { witnessEmptyAM with
        AnalysisPasses := (5, witnessPass) :: witnessEmptyAM.AnalysisPasses } ∧
    witnessEmptyAM.getResult 5 0 = Option.none ∧
    witnessEmptyAM.invalidateId 5 0 = Option.none :=
  ⟨(register_and_query_fatality witnessRegisteredAM 5 witnessPass 0).1.mpr rfl,
   ((register_and_query_fatality witnessEmptyAM 5 witnessPass 0).2.1 rfl).1,
   ((register_and_query_fatality witnessEmptyAM 5 witnessPass 0).2.2 rfl).1,
   ((register_and_query_fatality witnessEmptyAM 5 witnessPass 0).2.2 rfl).2⟩

/-- Helper: running the adaptor loop with an instrumented pass appends every
function of the module, in iteration order, to the trace, and folds the
per-function preserved sets into the running total by intersection. -/
theorem ModuleToFunctionPassAdaptorLoop_traced (p : Nat → PreservedAnalyses)
    (M : List Nat) (tr : List Nat) (PA : PreservedAnalyses) :
    ModuleToFunctionPassAdaptorLoop (tracedPass p) tr PA M =
      (tr ++ M, M.foldl (fun B I => B.intersect (p I)) PA) := by
  induction M generalizing tr PA with
  | nil => simp [ModuleToFunctionPassAdaptorLoop]
  | cons a as ih => simp [ModuleToFunctionPassAdaptorLoop, tracedPass, ih]

/-- C3: the adaptor invokes the wrapped pass exactly once per function of the
module, in iteration order (the trace equals the module's function list),
and returns the intersection of the reported sets with the proxy's
identity additionally preserved; on a three-function module with a pass
that always reports the empty set, the result preserves the proxy's
identity and nothing else. -/
theorem adaptor_invokes_pass_per_function (p : Nat → PreservedAnalyses)
    (M : List Nat) (id : Nat) :
    (ModuleToFunctionPassAdaptorRun (tracedPass p) [] M).1 = M ∧
    (ModuleToFunctionPassAdaptorRun (tracedPass p) [] M).2 =
      (M.foldl (fun B I => B.intersect (p I)) PreservedAnalyses.all).preserve
        FunctionAnalysisModuleProxyID ∧
    (ModuleToFunctionPassAdaptorRun (tracedPass (fun _ => PreservedAnalyses.none))
      [] [10, 20, 30]).1 = [10, 20, 30] ∧
    (ModuleToFunctionPassAdaptorRun (tracedPass (fun _ => PreservedAnalyses.none))
      [] [10, 20, 30]).2.preserved FunctionAnalysisModuleProxyID = true ∧
    (id ≠ FunctionAnalysisModuleProxyID →
      (ModuleToFunctionPassAdaptorRun (tracedPass (fun _ => PreservedAnalyses.none))
        [] [10, 20, 30]).2.preserved id = false) := by
  refine ⟨?_, ?_, by decide, by decide, ?_⟩
  · simp [ModuleToFunctionPassAdaptorRun, ModuleToFunctionPassAdaptorLoop_traced]
  · simp [ModuleToFunctionPassAdaptorRun, ModuleToFunctionPassAdaptorLoop_traced]
  · intro hid
    have hset : (ModuleToFunctionPassAdaptorRun
        (tracedPass (fun _ => PreservedAnalyses.none)) [] [10, 20, 30]).2 =
        ⟨{FunctionAnalysisModuleProxyID}⟩ := by decide
    rw [hset]
    simp only [PreservedAnalyses.preserved, Bool.or_eq_false_iff,
      decide_eq_false_iff_not, Finset.mem_singleton]
    exact ⟨by decide, hid⟩

/-- Witness for C3: identity 42 is not preserved by the three-function run
with the always-empty pass. -/
theorem adaptor_invokes_pass_per_function_witness :
    (ModuleToFunctionPassAdaptorRun (tracedPass (fun _ => PreservedAnalyses.none))
      [] [10, 20, 30]).2.preserved 42 = false :=
  (adaptor_invokes_pass_per_function (fun _ => PreservedAnalyses.none)
    [10, 20, 30] 42).2.2.2.2 (by decide)

/-- C10: on a module with zero functions the adaptor returns the all-state
set (every identity is answered preserved, not only the proxy's) and the
wrapped pass is never invoked (its state comes back untouched, whatever
the pass is). -/
theorem adaptor_empty_module_preserves_all {σ : Type}
    (Pass : σ → Nat → σ × PreservedAnalyses) (s : σ) (id : Nat) :
    ModuleToFunctionPassAdaptorRun Pass s [] = (s, PreservedAnalyses.all) ∧
    (ModuleToFunctionPassAdaptorRun Pass s []).2.preserved id = true := by
  have h : ModuleToFunctionPassAdaptorRun Pass s [] = (s, PreservedAnalyses.all) := by
    simp [ModuleToFunctionPassAdaptorRun, ModuleToFunctionPassAdaptorLoop,
      PreservedAnalyses.preserve, PreservedAnalyses.areAllPreserved,
      PreservedAnalyses.all]
  refine ⟨h, ?_⟩
  rw [h]
  exact PreservedAnalyses.preserved_all id
